import Mathlib

/-!
Verification of the Imath quaternion core (`Quat<T>`) against its
natural-language specification.  The repository ships only the test driver
`src/ImathTest/testQuat.cpp`; the quaternion implementation itself
(`ImathQuat.h`, `ImathMatrixAlgo.h`) is not in the source tree, so every
operation below is modelled from the specification text, over exact real
arithmetic (the element type `T` of the C++ template is idealised as `ℝ`;
floating-point rounding is out of scope of the shallow embedding, so the
spec's `O(epsilon)` tolerances are verified with exact error `0`).
-/

noncomputable section

namespace Imath

/-- Modelled from the spec: the external 3-component vector collaborator
(`Vec3<T>`), a plain triple of scalars supplying dot product, cross product,
length, normalization and tolerance-based equality. -/
@[ext]
structure Vec3 where
  x : ℝ
  y : ℝ
  z : ℝ

namespace Vec3

/-- Modelled from the spec: component-wise vector addition. -/
def add (a b : Vec3) : Vec3 := ⟨a.x + b.x, a.y + b.y, a.z + b.z⟩

/-- Modelled from the spec: scalar multiple of a vector. -/
def smul (t : ℝ) (a : Vec3) : Vec3 := ⟨t * a.x, t * a.y, t * a.z⟩

/-- Modelled from the spec: component-wise division by a scalar. -/
def sdiv (a : Vec3) (t : ℝ) : Vec3 := ⟨a.x / t, a.y / t, a.z / t⟩

/-- Modelled from the spec: component-wise negation. -/
def neg (a : Vec3) : Vec3 := ⟨-a.x, -a.y, -a.z⟩

/-- Modelled from the spec: the dot product supplied by the vector
collaborator (`operator^` on `Vec3`). -/
def dot (a b : Vec3) : ℝ := a.x * b.x + a.y * b.y + a.z * b.z

/-- Modelled from the spec: the cross product supplied by the vector
collaborator (`operator%` on `Vec3`). -/
def cross (a b : Vec3) : Vec3 :=
  ⟨a.y * b.z - a.z * b.y, a.z * b.x - a.x * b.z, a.x * b.y - a.y * b.x⟩

/-- Squared Euclidean length of a 3-vector. -/
def lengthSq (a : Vec3) : ℝ := a.x * a.x + a.y * a.y + a.z * a.z

/-- Modelled from the spec: Euclidean length of a 3-vector. -/
def length (a : Vec3) : ℝ := Real.sqrt a.lengthSq

/-- Modelled from the spec: value-returning vector normalization; a
zero-length vector normalizes to the zero vector (documented fallback). -/
def normalized (a : Vec3) : Vec3 :=
  if a.length = 0 then ⟨0, 0, 0⟩ else ⟨a.x / a.length, a.y / a.length, a.z / a.length⟩

/-- Modelled from the spec: tolerance-based vector equality
(`equalWithAbsError`): every component differs by at most `e`. -/
def equalWithAbsError (a b : Vec3) (e : ℝ) : Prop :=
  |a.x - b.x| ≤ e ∧ |a.y - b.y| ≤ e ∧ |a.z - b.z| ≤ e

end Vec3

/-- The quaternion core: a real scalar `r` and a 3-vector `v`, representing
the rotation `r + v·(i,j,k)`.  No magnitude invariant is enforced by the
type. -/
@[ext]
structure Quat where
  r : ℝ
  v : Vec3

namespace Quat

/-- Modelled from the spec: the default constructor yields the identity
rotation `r = 1, v = (0,0,0)`. -/
def ident : Quat := ⟨1, ⟨0, 0, 0⟩⟩

/-- Modelled from the spec: quaternion dot product `operator^`, returning the
scalar `r1*r2 + v1·v2`. -/
def dot (a b : Quat) : ℝ := a.r * b.r + Vec3.dot a.v b.v

/-- Modelled from the spec: the conjugate `~q`, negating `v`. -/
def conjugate (a : Quat) : Quat := ⟨a.r, a.v.neg⟩

/-- Modelled from the spec: `length()`, the Euclidean norm of the 4
components. -/
def length (a : Quat) : ℝ := Real.sqrt (a.r * a.r + Vec3.dot a.v a.v)

/-- Modelled from the spec: Hamilton's product rule,
`(r1,v1)*(r2,v2) = (r1*r2 - v1·v2, r1*v2 + r2*v1 + v1×v2)`. -/
def mul (a b : Quat) : Quat :=
  ⟨a.r * b.r - Vec3.dot a.v b.v,
   (Vec3.smul a.r b.v).add ((Vec3.smul b.r a.v).add (Vec3.cross a.v b.v))⟩

/-- Modelled from the spec: value-returning `inverse()`, the multiplicative
inverse `conjugate(q) / (q^q)`. -/
def inverse (a : Quat) : Quat :=
  ⟨a.r / Quat.dot a a, a.v.neg.sdiv (Quat.dot a a)⟩

/-- Modelled from the spec: mutating `invert()`; the embedding passes state
explicitly, so it returns the value the receiver holds afterwards.  The
body repeats the inverse formula, as the mutating C++ variant does. -/
def invert (a : Quat) : Quat :=
  ⟨a.r / Quat.dot a a, a.v.neg.sdiv (Quat.dot a a)⟩

/-- Modelled from the spec: value-returning `normalized()`, scaling so the
length becomes 1, with the documented identity fallback on a zero-length
quaternion. -/
def normalized (a : Quat) : Quat :=
  if a.length = 0 then ident else ⟨a.r / a.length, a.v.sdiv a.length⟩

/-- Modelled from the spec: mutating `normalize()`, returning the value the
receiver holds afterwards. -/
def normalize (a : Quat) : Quat :=
  if a.length = 0 then ident else ⟨a.r / a.length, a.v.sdiv a.length⟩

/-- Modelled from the spec: quaternion division `a/b` defined as
`a * b.inverse()`. -/
def div (a b : Quat) : Quat := mul a b.inverse

/-- Modelled from the spec: `setAxisAngle(axis, angle)` builds
`r = cos(angle/2)`, `v = sin(angle/2) * normalize(axis)`. -/
def setAxisAngle (axis : Vec3) (angle : ℝ) : Quat :=
  ⟨Real.cos (angle / 2), Vec3.smul (Real.sin (angle / 2)) axis.normalized⟩

/-- Modelled from the spec: the C library's `atan2(y, x)`, needed by the
small-angle-safe `angle()` formula. -/
def atan2 (y x : ℝ) : ℝ :=
  if 0 < x then Real.arctan (y / x)
  else if x < 0 then
    (if 0 ≤ y then Real.arctan (y / x) + Real.pi else Real.arctan (y / x) - Real.pi)
  else
    (if 0 < y then Real.pi / 2 else if y < 0 then -(Real.pi / 2) else 0)

/-- Modelled from the spec: `angle()` uses the small-angle-accurate formula
`angle = 2*atan2(|v|, r)`. -/
def angle (a : Quat) : ℝ := 2 * atan2 a.v.length a.r

/-- Modelled from the spec: `axis()` recovers the axis as `v` normalized
(the denormal-range rescaling the spec asks of a floating implementation is
the identity over exact reals). -/
def axis (a : Quat) : Vec3 := a.v.normalized

end Quat

/-- Modelled from the spec: the external `Matrix33<T>` collaborator, indexed
row-then-column; indices `≥ 3` carry no information. -/
def M33 : Type := ℕ → ℕ → ℝ

/-- Row-major constructor for a 3×3 matrix. -/
def mk33 (a00 a01 a02 a10 a11 a12 a20 a21 a22 : ℝ) : M33 :=
  fun i j =>
    if i = 0 then (if j = 0 then a00 else if j = 1 then a01 else a02)
    else if i = 1 then (if j = 0 then a10 else if j = 1 then a11 else a12)
    else (if j = 0 then a20 else if j = 1 then a21 else a22)

/-- Modelled from the spec: tolerance-based 3×3 matrix equality
(`equalWithAbsError`): every component differs by at most `e`. -/
def M33.equalWithAbsError (a b : M33) (e : ℝ) : Prop :=
  ∀ i j, i < 3 → j < 3 → |a i j - b i j| ≤ e

/-- Modelled from the spec: the external `Matrix44<T>` collaborator, indexed
row-then-column; indices `≥ 4` carry no information. -/
def M44 : Type := ℕ → ℕ → ℝ

/-- Row-major constructor for a 4×4 matrix. -/
def mk44 (a00 a01 a02 a03 a10 a11 a12 a13 a20 a21 a22 a23 a30 a31 a32 a33 : ℝ) : M44 :=
  fun i j =>
    if i = 0 then (if j = 0 then a00 else if j = 1 then a01 else if j = 2 then a02 else a03)
    else if i = 1 then (if j = 0 then a10 else if j = 1 then a11 else if j = 2 then a12 else a13)
    else if i = 2 then (if j = 0 then a20 else if j = 1 then a21 else if j = 2 then a22 else a23)
    else (if j = 0 then a30 else if j = 1 then a31 else if j = 2 then a32 else a33)

/-- Modelled from the spec: tolerance-based 4×4 matrix equality
(`equalWithAbsError`): every component differs by at most `e`. -/
def M44.equalWithAbsError (a b : M44) (e : ℝ) : Prop :=
  ∀ i j, i < 4 → j < 4 → |a i j - b i j| ≤ e

namespace Quat

/-- Modelled from the spec: `toMatrix33()` builds the rotation matrix from
`(r, v)` via the standard quaternion-to-matrix formula (entries quadratic in
`r, x, y, z`; row-vector convention, pinned by the expected matrix of the
`setRotation((1,0,0) → (0,1,0))` test). -/
def toMatrix33 (q : Quat) : M33 :=
  mk33
    (1 - 2 * (q.v.y * q.v.y + q.v.z * q.v.z))
    (2 * (q.v.x * q.v.y + q.v.z * q.r))
    (2 * (q.v.z * q.v.x - q.v.y * q.r))
    (2 * (q.v.x * q.v.y - q.v.z * q.r))
    (1 - 2 * (q.v.z * q.v.z + q.v.x * q.v.x))
    (2 * (q.v.y * q.v.z + q.v.x * q.r))
    (2 * (q.v.z * q.v.x + q.v.y * q.r))
    (2 * (q.v.y * q.v.z - q.v.x * q.r))
    (1 - 2 * (q.v.x * q.v.x + q.v.y * q.v.y))

/-- Modelled from the spec: `toMatrix44()` embeds the 3×3 rotation in the
upper-left block of a 4×4 matrix with identity elsewhere. -/
def toMatrix44 (q : Quat) : M44 :=
  mk44
    (1 - 2 * (q.v.y * q.v.y + q.v.z * q.v.z))
    (2 * (q.v.x * q.v.y + q.v.z * q.r))
    (2 * (q.v.z * q.v.x - q.v.y * q.r))
    0
    (2 * (q.v.x * q.v.y - q.v.z * q.r))
    (1 - 2 * (q.v.z * q.v.z + q.v.x * q.v.x))
    (2 * (q.v.y * q.v.z + q.v.x * q.r))
    0
    (2 * (q.v.z * q.v.x + q.v.y * q.r))
    (2 * (q.v.y * q.v.z - q.v.x * q.r))
    (1 - 2 * (q.v.x * q.v.x + q.v.y * q.v.y))
    0
    0 0 0 1

/-- Modelled from the spec: `setRotation(from, to)` builds the quaternion
that rotates direction `from` onto direction `to` about the axis
`from × to`.  With `f0`, `t0` the normalized inputs and `h0` the normalized
half-way vector between them, the quaternion is `(f0·h0, f0×h0)` — the
half-vector form of `setAxisAngle(from × to, angle between f0 and t0)`,
exact for angles below π (both uses in the tests are right angles). -/
def setRotation (fromV toV : Vec3) : Quat :=
  ⟨Vec3.dot fromV.normalized ((fromV.normalized.add toV.normalized).normalized),
   Vec3.cross fromV.normalized ((fromV.normalized.add toV.normalized).normalized)⟩

end Quat

/-- Modelled from the spec: the free function `rotationMatrix(from, to)`
(external collaborator) builds the matrix rotating direction `from` onto
direction `to`, as the matrix of the quaternion `setRotation` builds. -/
def rotationMatrix (fromV toV : Vec3) : M44 :=
  (Quat.setRotation fromV toV).toMatrix44

/-- Successor map on the indices `0, 1, 2` (`nxt[3] = {1, 2, 0}`), used by
the trace-based branch of `extractQuat`. -/
def nxt (n : ℕ) : ℕ := if n = 0 then 1 else if n = 1 then 2 else 0

/-- Modelled from the spec: the free function `extractQuat(matrix)` with
trace-based branch selection.  If the 3×3 trace is positive, `r` and `v`
come directly from the trace and the off-diagonal differences; otherwise the
branch keyed on the largest diagonal element is taken to avoid dividing by a
near-zero quantity. -/
def extractQuat (m : M44) : Quat :=
  let tr := m 0 0 + m 1 1 + m 2 2
  if 0 < tr then
    let s := Real.sqrt (tr + 1)
    let t := (1 / 2) / s
    ⟨s / 2, ⟨(m 1 2 - m 2 1) * t, (m 2 0 - m 0 2) * t, (m 0 1 - m 1 0) * t⟩⟩
  else
    let i0 := if m 0 0 < m 1 1 then 1 else 0
    let i := if m i0 i0 < m 2 2 then 2 else i0
    let j := nxt i
    let k := nxt j
    let s := Real.sqrt ((m i i - (m j j + m k k)) + 1)
    let t := if s = 0 then s else (1 / 2) / s
    let comp := fun n => if n = i then s * (1 / 2)
      else if n = j then (m i j + m j i) * t else (m i k + m k i) * t
    ⟨(m j k - m k j) * t, ⟨comp 0, comp 1, comp 2⟩⟩

/-- Modelled from the spec: the precision bridge, an elementwise cast of `r`
and each component of `v` under a scalar conversion function, with no
rescaling and no renormalization. -/
def quatConvert (cast : ℝ → ℝ) (q : Quat) : Quat :=
  ⟨cast q.r, ⟨cast q.v.x, cast q.v.y, cast q.v.z⟩⟩

/-- C3: quaternion multiplication follows Hamilton's product rule
`(r1,v1)*(r2,v2) = (r1*r2 - v1·v2, r1*v2 + r2*v1 + v1×v2)` and is not
commutative: `Quat(1,0,0,1) * Quat(1,1,0,0) = Quat(1,1,1,1)` exactly while
`Quat(1,1,0,0) * Quat(1,0,0,1) = Quat(1,1,-1,1)` exactly. -/
theorem C3_mul_hamilton_noncomm (q1 q2 : Quat) :
    Quat.mul q1 q2 =
      ⟨q1.r * q2.r - Vec3.dot q1.v q2.v,
       (Vec3.smul q1.r q2.v).add ((Vec3.smul q2.r q1.v).add (Vec3.cross q1.v q2.v))⟩ ∧
    Quat.mul ⟨1, ⟨0, 0, 1⟩⟩ ⟨1, ⟨1, 0, 0⟩⟩ = ⟨1, ⟨1, 1, 1⟩⟩ ∧
    Quat.mul ⟨1, ⟨1, 0, 0⟩⟩ ⟨1, ⟨0, 0, 1⟩⟩ = ⟨1, ⟨1, -1, 1⟩⟩ ∧
    Quat.mul ⟨1, ⟨0, 0, 1⟩⟩ ⟨1, ⟨1, 0, 0⟩⟩ ≠ Quat.mul ⟨1, ⟨1, 0, 0⟩⟩ ⟨1, ⟨0, 0, 1⟩⟩ := by
  refine ⟨rfl, ?_, ?_, ?_⟩ <;>
    norm_num [Quat.mul, Vec3.dot, Vec3.cross, Vec3.smul, Vec3.add, Quat.mk.injEq,
      Vec3.mk.injEq]

/-- C5: quaternion division `a/b` is `a * b.inverse()`, and
`Quat(1,0,0,1) / Quat(0.5,-0.5,0,0) = Quat(1,1,1,1)` exactly. -/
theorem C5_div (a b : Quat) :
    Quat.div a b = Quat.mul a b.inverse ∧
    Quat.div ⟨1, ⟨0, 0, 1⟩⟩ ⟨1 / 2, ⟨-(1 / 2), 0, 0⟩⟩ = ⟨1, ⟨1, 1, 1⟩⟩ := by
  refine ⟨rfl, ?_⟩
  simp [Quat.div, Quat.mul, Quat.inverse, Quat.dot, Vec3.dot, Vec3.cross, Vec3.smul,
    Vec3.add, Vec3.neg, Vec3.sdiv, Quat.mk.injEq, Vec3.mk.injEq]
  norm_num

/-- C9: `length()` is the Euclidean norm of the 4 components, and
`Quat(3,0,4,0).length() = 5` exactly. -/
theorem C9_length (q : Quat) :
    q.length =
      Real.sqrt (q.r * q.r + (q.v.x * q.v.x + q.v.y * q.v.y + q.v.z * q.v.z)) ∧
    (Quat.mk 3 ⟨0, 4, 0⟩).length = 5 := by
  refine ⟨rfl, ?_⟩
  show Real.sqrt (3 * 3 + (0 * 0 + 4 * 4 + 0 * 0)) = 5
  rw [show (3 * 3 + (0 * 0 + 4 * 4 + 0 * 0) : ℝ) = 5 ^ 2 by norm_num]
  exact Real.sqrt_sq (by norm_num)

/-- C10: each mutating/value-returning pair agrees: `invert()` leaves the
receiver equal to what `inverse()` returns, and `normalize()` leaves it
equal to what `normalized()` returns. -/
theorem C10_mutating_pairs (q : Quat) :
    q.invert = q.inverse ∧ q.normalize = q.normalized :=
  ⟨rfl, rfl⟩

/-- C8: cross-precision conversion is an elementwise cast of `r` and each
component of `v` with no rescaling or renormalization; for any scalar cast
exact on the values 1, 2, 3, 4 (as the float↔double casts are, in either
direction), converting the quaternion `(1,(2,3,4))` yields exactly
`r = 1, v = (2,3,4)`. -/
theorem C8_conversion (cast : ℝ → ℝ)
    (h1 : cast 1 = 1) (h2 : cast 2 = 2) (h3 : cast 3 = 3) (h4 : cast 4 = 4) :
    (∀ q : Quat, quatConvert cast q = ⟨cast q.r, ⟨cast q.v.x, cast q.v.y, cast q.v.z⟩⟩) ∧
    quatConvert cast ⟨1, ⟨2, 3, 4⟩⟩ = ⟨1, ⟨2, 3, 4⟩⟩ := by
  refine ⟨fun q => rfl, ?_⟩
  simp [quatConvert, h1, h2, h3, h4]

/-- The length of a scalar multiple is the absolute scalar times the
length. -/
theorem Vec3.length_smul (s : ℝ) (a : Vec3) :
    (Vec3.smul s a).length = |s| * a.length := by
  simp only [Vec3.smul, Vec3.length, Vec3.lengthSq]
  rw [show s * a.x * (s * a.x) + s * a.y * (s * a.y) + s * a.z * (s * a.z) =
      s ^ 2 * (a.x * a.x + a.y * a.y + a.z * a.z) by ring,
    Real.sqrt_mul (sq_nonneg s), Real.sqrt_sq_eq_abs]

/-- A unit vector is its own normalization. -/
theorem Vec3.normalized_of_unit (u : Vec3) (hu : u.length = 1) :
    u.normalized = u := by
  rw [Vec3.normalized, hu]
  norm_num

/-- Normalizing a positive multiple of a unit vector recovers the unit
vector. -/
theorem Vec3.normalized_smul_unit (s : ℝ) (u : Vec3) (hs : 0 < s)
    (hu : u.length = 1) : (Vec3.smul s u).normalized = u := by
  have hl : (Vec3.smul s u).length = s := by
    rw [Vec3.length_smul, hu, abs_of_pos hs, mul_one]
  rw [Vec3.normalized, hl, if_neg (ne_of_gt hs)]
  ext <;> simp [Vec3.smul] <;> exact mul_div_cancel_left₀ _ (ne_of_gt hs)

/-- `atan2` on a positive abscissa scales away a common positive factor. -/
theorem atan2_pos_x (y x : ℝ) (hx : 0 < x) :
    Quat.atan2 y x = Real.arctan (y / x) := by
  rw [Quat.atan2, if_pos hx]

/-- A quaternion of nonzero length has nonzero squared norm `q ^ q`. -/
theorem dot_self_ne_zero_of_length_ne_zero (q : Quat) (h : q.length ≠ 0) :
    q.r * q.r + Vec3.dot q.v q.v ≠ 0 := by
  intro h0
  exact h (by simp [Quat.length, h0])

/-- C4: `inverse()` returns the multiplicative inverse
`conjugate(q)/(q^q)`: for every nonzero-length `q`, `q.inverse() * q` is the
identity quaternion (exactly, hence within any tolerance), and
`Quat(1,0,0,1).inverse() = Quat(0.5,0,0,-0.5)` exactly. -/
theorem C4_inverse (q : Quat) (h : q.length ≠ 0) :
    Quat.mul q.inverse q = Quat.ident ∧
    (Quat.mk 1 ⟨0, 0, 1⟩).inverse = Quat.mk (1 / 2) ⟨0, 0, -(1 / 2)⟩ := by
  have hd : q.r * q.r + Vec3.dot q.v q.v ≠ 0 := dot_self_ne_zero_of_length_ne_zero q h
  constructor
  · simp only [Quat.mul, Quat.inverse, Quat.ident, Quat.dot, Vec3.dot, Vec3.neg,
      Vec3.sdiv, Vec3.smul, Vec3.add, Vec3.cross, Quat.mk.injEq, Vec3.mk.injEq]
    simp only [Quat.dot, Vec3.dot] at hd
    refine ⟨?_, ?_, ?_, ?_⟩ <;> field_simp <;> ring
  · simp [Quat.inverse, Quat.dot, Vec3.dot, Vec3.neg, Vec3.sdiv, Quat.mk.injEq,
      Vec3.mk.injEq]
    norm_num

/-- C4 witness: `Quat(1,0,0,1)` has nonzero length, its inverse times
itself is the identity, and its inverse is `Quat(0.5,0,0,-0.5)`. -/
theorem C4_inverse_witness :
    Quat.mul (Quat.mk 1 ⟨0, 0, 1⟩).inverse (Quat.mk 1 ⟨0, 0, 1⟩) = Quat.ident ∧
    (Quat.mk 1 ⟨0, 0, 1⟩).inverse = Quat.mk (1 / 2) ⟨0, 0, -(1 / 2)⟩ :=
  C4_inverse ⟨1, ⟨0, 0, 1⟩⟩ (by
    show Real.sqrt (1 * 1 + (0 * 0 + 0 * 0 + 1 * 1)) ≠ 0
    rw [show (1 * 1 + (0 * 0 + 0 * 0 + 1 * 1) : ℝ) = 2 by norm_num]
    exact Real.sqrt_ne_zero'.mpr (by norm_num))

/-- C6: `normalized()` scales a quaternion so its length becomes 1 (proved
for every nonzero-length quaternion), and in particular
`Quat(2,(0,0,0)).normalized() = Quat(1,0,0,0)` and
`Quat(0,(0,2,0)).normalized() = Quat(0,0,1,0)` exactly. -/
theorem C6_normalized (q : Quat) (h : q.length ≠ 0) :
    q.normalized.length = 1 ∧
    (Quat.mk 2 ⟨0, 0, 0⟩).normalized = Quat.mk 1 ⟨0, 0, 0⟩ ∧
    (Quat.mk 0 ⟨0, 2, 0⟩).normalized = Quat.mk 0 ⟨0, 1, 0⟩ := by
  have hd : q.r * q.r + Vec3.dot q.v q.v ≠ 0 := dot_self_ne_zero_of_length_ne_zero q h
  have hd0 : 0 ≤ q.r * q.r + Vec3.dot q.v q.v := by
    simp only [Vec3.dot]
    nlinarith [mul_self_nonneg q.r, mul_self_nonneg q.v.x, mul_self_nonneg q.v.y,
      mul_self_nonneg q.v.z]
  have hll : q.length * q.length = q.r * q.r + Vec3.dot q.v q.v :=
    Real.mul_self_sqrt hd0
  refine ⟨?_, ?_, ?_⟩
  · rw [Quat.normalized, if_neg h]
    show Real.sqrt _ = 1
    rw [show (1 : ℝ) = Real.sqrt 1 by rw [Real.sqrt_one]]
    congr 1
    simp only [Vec3.sdiv, Vec3.dot] at hll ⊢
    simp only [Vec3.dot] at hd
    field_simp
    linarith [hll]
  · have hl : (Quat.mk 2 ⟨0, 0, 0⟩).length = 2 := by
      show Real.sqrt (2 * 2 + (0 * 0 + 0 * 0 + 0 * 0)) = 2
      rw [show (2 * 2 + (0 * 0 + 0 * 0 + 0 * 0) : ℝ) = 2 ^ 2 by norm_num]
      exact Real.sqrt_sq (by norm_num)
    rw [Quat.normalized, hl]
    norm_num [Vec3.sdiv, Quat.mk.injEq, Vec3.mk.injEq]
  · have hl : (Quat.mk 0 ⟨0, 2, 0⟩).length = 2 := by
      show Real.sqrt (0 * 0 + (0 * 0 + 2 * 2 + 0 * 0)) = 2
      rw [show (0 * 0 + (0 * 0 + 2 * 2 + 0 * 0) : ℝ) = 2 ^ 2 by norm_num]
      exact Real.sqrt_sq (by norm_num)
    rw [Quat.normalized, hl]
    norm_num [Vec3.sdiv, Quat.mk.injEq, Vec3.mk.injEq]

/-- C6 witness: `Quat(2,(0,0,0))` has nonzero length; its normalization has
length 1, and the two concrete normalizations hold. -/
theorem C6_normalized_witness :
    (Quat.mk 2 ⟨0, 0, 0⟩).normalized.length = 1 ∧
    (Quat.mk 2 ⟨0, 0, 0⟩).normalized = Quat.mk 1 ⟨0, 0, 0⟩ ∧
    (Quat.mk 0 ⟨0, 2, 0⟩).normalized = Quat.mk 0 ⟨0, 1, 0⟩ :=
  C6_normalized ⟨2, ⟨0, 0, 0⟩⟩ (by
    show Real.sqrt (2 * 2 + (0 * 0 + 0 * 0 + 0 * 0)) ≠ 0
    rw [show (2 * 2 + (0 * 0 + 0 * 0 + 0 * 0) : ℝ) = 4 by norm_num]
    exact Real.sqrt_ne_zero'.mpr (by norm_num))

theorem sqrt_two_mul_self : Real.sqrt 2 * Real.sqrt 2 = 2 :=
  Real.mul_self_sqrt (by norm_num)

theorem sqrt_two_pos : 0 < Real.sqrt 2 := Real.sqrt_pos.mpr (by norm_num)

theorem sqrt_two_ne_zero : Real.sqrt 2 ≠ 0 := ne_of_gt sqrt_two_pos

theorem one_div_sqrt_two : 1 / Real.sqrt 2 = Real.sqrt 2 / 2 := by
  rw [div_eq_div_iff sqrt_two_ne_zero (by norm_num : (2 : ℝ) ≠ 0), one_mul,
    sqrt_two_mul_self]

/-- The x unit vector is already normalized. -/
theorem normalized_ex : (Vec3.mk 1 0 0).normalized = ⟨1, 0, 0⟩ :=
  Vec3.normalized_of_unit _ (by
    show Real.sqrt (1 * 1 + 0 * 0 + 0 * 0) = 1
    rw [show (1 * 1 + 0 * 0 + 0 * 0 : ℝ) = 1 by norm_num]
    exact Real.sqrt_one)

/-- The y unit vector is already normalized. -/
theorem normalized_ey : (Vec3.mk 0 1 0).normalized = ⟨0, 1, 0⟩ :=
  Vec3.normalized_of_unit _ (by
    show Real.sqrt (0 * 0 + 1 * 1 + 0 * 0) = 1
    rw [show (0 * 0 + 1 * 1 + 0 * 0 : ℝ) = 1 by norm_num]
    exact Real.sqrt_one)

/-- `setRotation((1,0,0) → (0,1,0))` is the quaternion for a right-angle
rotation about the z axis: `(√2/2, (0, 0, √2/2))`. -/
theorem setRotation_x_to_y :
    Quat.setRotation ⟨1, 0, 0⟩ ⟨0, 1, 0⟩ =
      ⟨Real.sqrt 2 / 2, ⟨0, 0, Real.sqrt 2 / 2⟩⟩ := by
  have hadd : (Vec3.mk 1 0 0).add ⟨0, 1, 0⟩ = ⟨1, 1, 0⟩ := by
    ext <;> norm_num [Vec3.add]
  have hlen : (Vec3.mk 1 1 0).length = Real.sqrt 2 := by
    show Real.sqrt (1 * 1 + 1 * 1 + 0 * 0) = Real.sqrt 2
    norm_num
  have h3 : (Vec3.mk 1 1 0).normalized =
      ⟨Real.sqrt 2 / 2, Real.sqrt 2 / 2, 0⟩ := by
    rw [Vec3.normalized, hlen, if_neg sqrt_two_ne_zero]
    ext <;> simp only
    · exact one_div_sqrt_two
    · exact one_div_sqrt_two
    · exact zero_div _
  rw [Quat.setRotation, normalized_ex, normalized_ey, hadd, h3]
  ext <;> simp only [Vec3.dot, Vec3.cross] <;> ring

set_option maxHeartbeats 2000000 in
/-- C7: the quaternion built by `setRotation((1,0,0), (0,1,0))` converts via
`toMatrix33()` to the rotation `[[0,1,0],[-1,0,0],[0,0,1]]` within `4*epsilon`
per component (exactly, over exact reals), and via `toMatrix44()` to the same
rotation embedded in the upper-left 3×3 block with identity elsewhere, within
the same tolerance. -/
theorem C7_setRotation_to_matrix (e : ℝ) (he : 0 ≤ e) :
    M33.equalWithAbsError (Quat.setRotation ⟨1, 0, 0⟩ ⟨0, 1, 0⟩).toMatrix33
      (mk33 0 1 0 (-1) 0 0 0 0 1) (4 * e) ∧
    M44.equalWithAbsError (Quat.setRotation ⟨1, 0, 0⟩ ⟨0, 1, 0⟩).toMatrix44
      (mk44 0 1 0 0 (-1) 0 0 0 0 0 1 0 0 0 0 1) (4 * e) := by
  have hm33 : (Quat.setRotation ⟨1, 0, 0⟩ ⟨0, 1, 0⟩).toMatrix33 =
      mk33 0 1 0 (-1) 0 0 0 0 1 := by
    rw [setRotation_x_to_y]
    funext i j
    unfold Quat.toMatrix33 mk33
    split_ifs <;> (dsimp only; nlinarith [sqrt_two_mul_self])
  have hm44 : (Quat.setRotation ⟨1, 0, 0⟩ ⟨0, 1, 0⟩).toMatrix44 =
      mk44 0 1 0 0 (-1) 0 0 0 0 0 1 0 0 0 0 1 := by
    rw [setRotation_x_to_y]
    funext i j
    unfold Quat.toMatrix44 mk44
    split_ifs <;> (dsimp only; try nlinarith [sqrt_two_mul_self])
  constructor
  · intro i j hi hj
    rw [hm33]
    simp only [sub_self, abs_zero]
    positivity
  · intro i j hi hj
    rw [hm44]
    simp only [sub_self, abs_zero]
    positivity

/-- C7 witness: at `epsilon = 0` both matrix forms of the
`setRotation((1,0,0), (0,1,0))` quaternion match the expected rotation. -/
theorem C7_setRotation_to_matrix_witness :
    M33.equalWithAbsError (Quat.setRotation ⟨1, 0, 0⟩ ⟨0, 1, 0⟩).toMatrix33
      (mk33 0 1 0 (-1) 0 0 0 0 1) (4 * 0) ∧
    M44.equalWithAbsError (Quat.setRotation ⟨1, 0, 0⟩ ⟨0, 1, 0⟩).toMatrix44
      (mk44 0 1 0 0 (-1) 0 0 0 0 0 1 0 0 0 0 1) (4 * 0) :=
  C7_setRotation_to_matrix 0 le_rfl

/-- The quaternion `setRotation((1,0,0), (0,1,1))` evaluates to: a rotation
by π/2 about the axis `(0,-1,1)/√2`. -/
def qC2 : Quat := ⟨Real.sqrt 2 / 2, ⟨0, -(1 / 2), 1 / 2⟩⟩

/-- The matrix `rotationMatrix((1,0,0), (0,1,1))` evaluates to. -/
def mC2 : M44 :=
  mk44 0 (Real.sqrt 2 / 2) (Real.sqrt 2 / 2) 0
    (-(Real.sqrt 2 / 2)) (1 / 2) (-(1 / 2)) 0
    (-(Real.sqrt 2 / 2)) (-(1 / 2)) (1 / 2) 0
    0 0 0 1

/-- `setRotation((1,0,0) → (0,1,1))` computes the quaternion `qC2`. -/
theorem setRotation_x_to_yz : Quat.setRotation ⟨1, 0, 0⟩ ⟨0, 1, 1⟩ = qC2 := by
  have hn : (Vec3.mk 0 1 1).normalized =
      ⟨0, Real.sqrt 2 / 2, Real.sqrt 2 / 2⟩ := by
    have hlen : (Vec3.mk 0 1 1).length = Real.sqrt 2 := by
      show Real.sqrt (0 * 0 + 1 * 1 + 1 * 1) = Real.sqrt 2
      norm_num
    rw [Vec3.normalized, hlen, if_neg sqrt_two_ne_zero]
    ext <;> simp only
    · exact zero_div _
    · exact one_div_sqrt_two
    · exact one_div_sqrt_two
  have hadd : (Vec3.mk 1 0 0).add ⟨0, Real.sqrt 2 / 2, Real.sqrt 2 / 2⟩ =
      ⟨1, Real.sqrt 2 / 2, Real.sqrt 2 / 2⟩ := by
    ext <;> norm_num [Vec3.add]
  have hh : (Vec3.mk 1 (Real.sqrt 2 / 2) (Real.sqrt 2 / 2)).normalized =
      ⟨Real.sqrt 2 / 2, 1 / 2, 1 / 2⟩ := by
    have hlen : (Vec3.mk 1 (Real.sqrt 2 / 2) (Real.sqrt 2 / 2)).length =
        Real.sqrt 2 := by
      show Real.sqrt (1 * 1 + Real.sqrt 2 / 2 * (Real.sqrt 2 / 2) +
        Real.sqrt 2 / 2 * (Real.sqrt 2 / 2)) = Real.sqrt 2
      congr 1
      nlinarith [sqrt_two_mul_self]
    rw [Vec3.normalized, hlen, if_neg sqrt_two_ne_zero]
    ext <;> simp only
    · exact one_div_sqrt_two
    · field_simp
      linarith [sqrt_two_mul_self]
    · field_simp
      linarith [sqrt_two_mul_self]
  rw [Quat.setRotation, normalized_ex, hn, hadd, hh, qC2]
  ext <;> simp only [Vec3.dot, Vec3.cross] <;> ring

set_option maxHeartbeats 2000000 in
/-- `toMatrix44` of the quaternion `qC2` is the matrix `mC2`. -/
theorem toMatrix44_qC2 : Quat.toMatrix44 qC2 = mC2 := by
  funext i j
  unfold qC2 mC2 Quat.toMatrix44 mk44
  split_ifs <;> (dsimp only; try nlinarith [sqrt_two_mul_self])

/-- `extractQuat` applied to the matrix `mC2` takes the positive-trace
branch and recovers the quaternion `qC2`. -/
theorem extractQuat_mC2 : extractQuat mC2 = qC2 := by
  have htr : mC2 0 0 + mC2 1 1 + mC2 2 2 = 1 := by
    show (0 : ℝ) + 1 / 2 + 1 / 2 = 1
    norm_num
  simp only [extractQuat]
  rw [htr, if_pos (by norm_num : (0 : ℝ) < 1),
    show (1 : ℝ) + 1 = 2 by norm_num]
  ext
  · rfl
  · show (mC2 1 2 - mC2 2 1) * (1 / 2 / Real.sqrt 2) = qC2.v.x
    show (-(1 / 2) - -(1 / 2)) * (1 / 2 / Real.sqrt 2) = 0
    ring
  · show (mC2 2 0 - mC2 0 2) * (1 / 2 / Real.sqrt 2) = qC2.v.y
    show (-(Real.sqrt 2 / 2) - Real.sqrt 2 / 2) * (1 / 2 / Real.sqrt 2) = -(1 / 2)
    field_simp
    linarith [sqrt_two_mul_self]
  · show (mC2 0 1 - mC2 1 0) * (1 / 2 / Real.sqrt 2) = qC2.v.z
    show (Real.sqrt 2 / 2 - -(Real.sqrt 2 / 2)) * (1 / 2 / Real.sqrt 2) = 1 / 2
    field_simp
    linarith [sqrt_two_mul_self]

/-- `rotationMatrix((1,0,0), (0,1,1))` computes the matrix `mC2`. -/
theorem rotationMatrix_x_to_yz : rotationMatrix ⟨1, 0, 0⟩ ⟨0, 1, 1⟩ = mC2 := by
  rw [rotationMatrix, setRotation_x_to_yz, toMatrix44_qC2]

/-- C2: for the matrix `m` built by `rotationMatrix((1,0,0), (0,1,1))` (the
target direction not unit length), `extractQuat(m).toMatrix44()` equals `m`
in every component within absolute error `2*(4*epsilon)` (exactly, over
exact reals). -/
theorem C2_extract_roundtrip (e : ℝ) (he : 0 ≤ e) :
    M44.equalWithAbsError
      ((extractQuat (rotationMatrix ⟨1, 0, 0⟩ ⟨0, 1, 1⟩)).toMatrix44)
      (rotationMatrix ⟨1, 0, 0⟩ ⟨0, 1, 1⟩) (2 * (4 * e)) := by
  rw [rotationMatrix_x_to_yz, extractQuat_mC2, toMatrix44_qC2]
  intro i j hi hj
  simp only [sub_self, abs_zero]
  positivity

/-- C2 witness: the round trip at `epsilon = 0`. -/
theorem C2_extract_roundtrip_witness :
    M44.equalWithAbsError
      ((extractQuat (rotationMatrix ⟨1, 0, 0⟩ ⟨0, 1, 1⟩)).toMatrix44)
      (rotationMatrix ⟨1, 0, 0⟩ ⟨0, 1, 1⟩) (2 * (4 * 0)) :=
  C2_extract_roundtrip 0 le_rfl

/-- C1: a unit quaternion built by `setAxisAngle(axis, angle)` from a unit
axis gives back the axis through `axis()` within `4*epsilon` absolute error
(exactly, over exact reals) and the angle through `angle()` within relative
error `4*epsilon` (exactly), for every angle in `(0, π/2]` — covering both
the extremely small test angles and π/2 — and still after `r` and `v` are
both uniformly scaled by 1.1. -/
theorem C1_axis_angle_roundtrip (u : Vec3) (t e : ℝ) (hu : u.length = 1)
    (ht0 : 0 < t) (ht1 : t ≤ Real.pi / 2) (he : 0 ≤ e) :
    Vec3.equalWithAbsError (Quat.setAxisAngle u t).axis u (4 * e) ∧
    |(Quat.setAxisAngle u t).angle - t| ≤ t * (4 * e) ∧
    Vec3.equalWithAbsError
      (Quat.mk (1.1 * (Quat.setAxisAngle u t).r)
        (Vec3.smul 1.1 (Quat.setAxisAngle u t).v)).axis u (4 * e) ∧
    |(Quat.mk (1.1 * (Quat.setAxisAngle u t).r)
        (Vec3.smul 1.1 (Quat.setAxisAngle u t).v)).angle - t| ≤ t * (4 * e) := by
  have hpi : 0 < Real.pi := Real.pi_pos
  have ht2a : 0 < t / 2 := by linarith
  have ht2b : t / 2 < Real.pi / 2 := by linarith
  have hc : 0 < Real.cos (t / 2) := Real.cos_pos_of_mem_Ioo ⟨by linarith, ht2b⟩
  have hs : 0 < Real.sin (t / 2) :=
    Real.sin_pos_of_pos_of_lt_pi ht2a (by linarith)
  have hq : Quat.setAxisAngle u t =
      ⟨Real.cos (t / 2), Vec3.smul (Real.sin (t / 2)) u⟩ := by
    rw [Quat.setAxisAngle, Vec3.normalized_of_unit u hu]
  have hss : Vec3.smul (1.1 : ℝ) (Vec3.smul (Real.sin (t / 2)) u) =
      Vec3.smul (1.1 * Real.sin (t / 2)) u := by
    ext <;> simp [Vec3.smul, mul_assoc]
  have htol : ∀ w : Vec3, Vec3.equalWithAbsError w w (4 * e) := by
    intro w
    refine ⟨?_, ?_, ?_⟩ <;> simp <;> positivity
  have hang : ∀ c s : ℝ, 0 < c → 0 < s →
      Real.sin (t / 2) / Real.cos (t / 2) = s / c →
      2 * Quat.atan2 s c = t := by
    intro c s hcp hsp hrat
    rw [atan2_pos_x s c hcp, ← hrat, ← Real.tan_eq_sin_div_cos,
      Real.arctan_tan (by linarith) ht2b]
    ring
  refine ⟨?_, ?_, ?_, ?_⟩
  · rw [hq]
    show Vec3.equalWithAbsError (Vec3.smul (Real.sin (t / 2)) u).normalized u (4 * e)
    rw [Vec3.normalized_smul_unit _ u hs hu]
    exact htol u
  · rw [hq, Quat.angle]
    show |2 * Quat.atan2 (Vec3.smul (Real.sin (t / 2)) u).length
      (Real.cos (t / 2)) - t| ≤ t * (4 * e)
    rw [Vec3.length_smul, hu, mul_one, abs_of_pos hs,
      hang _ _ hc hs rfl]
    simp only [sub_self, abs_zero]
    positivity
  · rw [hq]
    show Vec3.equalWithAbsError
      (Vec3.smul (1.1 : ℝ) (Vec3.smul (Real.sin (t / 2)) u)).normalized u (4 * e)
    rw [hss, Vec3.normalized_smul_unit _ u (by positivity) hu]
    exact htol u
  · rw [hq]
    show |2 * Quat.atan2
      (Vec3.smul (1.1 : ℝ) (Vec3.smul (Real.sin (t / 2)) u)).length
      ((1.1 : ℝ) * Real.cos (t / 2)) - t| ≤ t * (4 * e)
    rw [hss, Vec3.length_smul, hu, mul_one,
      abs_of_pos (by positivity : (0 : ℝ) < 1.1 * Real.sin (t / 2)),
      hang _ _ (by positivity) (by positivity)
        (by rw [mul_div_mul_left _ _ (by norm_num : (1.1 : ℝ) ≠ 0)])]
    simp only [sub_self, abs_zero]
    positivity

/-- C1 witness: the unit axis `(0,0,1)` and the angle `π/2` (with
`epsilon = 0`) satisfy the hypotheses, and the axis/angle round trip holds
there, before and after the 1.1 scaling. -/
theorem C1_axis_angle_roundtrip_witness :
    Vec3.equalWithAbsError
      (Quat.setAxisAngle ⟨0, 0, 1⟩ (Real.pi / 2)).axis ⟨0, 0, 1⟩ (4 * 0) ∧
    |(Quat.setAxisAngle ⟨0, 0, 1⟩ (Real.pi / 2)).angle - Real.pi / 2| ≤
      Real.pi / 2 * (4 * 0) ∧
    Vec3.equalWithAbsError
      (Quat.mk (1.1 * (Quat.setAxisAngle ⟨0, 0, 1⟩ (Real.pi / 2)).r)
        (Vec3.smul 1.1 (Quat.setAxisAngle ⟨0, 0, 1⟩ (Real.pi / 2)).v)).axis
      ⟨0, 0, 1⟩ (4 * 0) ∧
    |(Quat.mk (1.1 * (Quat.setAxisAngle ⟨0, 0, 1⟩ (Real.pi / 2)).r)
        (Vec3.smul 1.1 (Quat.setAxisAngle ⟨0, 0, 1⟩ (Real.pi / 2)).v)).angle -
      Real.pi / 2| ≤ Real.pi / 2 * (4 * 0) :=
  C1_axis_angle_roundtrip ⟨0, 0, 1⟩ (Real.pi / 2) 0
    (by
      show Real.sqrt (0 * 0 + 0 * 0 + 1 * 1) = 1
      rw [show (0 * 0 + 0 * 0 + 1 * 1 : ℝ) = 1 by norm_num]
      exact Real.sqrt_one)
    (by positivity) le_rfl le_rfl

/-- C8 witness: the identity cast is exact on 1, 2, 3, 4, and the
conversion of `(1,(2,3,4))` under it is exactly `(1,(2,3,4))`. -/
theorem C8_conversion_witness :
    (∀ q : Quat, quatConvert id q = ⟨id q.r, ⟨id q.v.x, id q.v.y, id q.v.z⟩⟩) ∧
    quatConvert id ⟨1, ⟨2, 3, 4⟩⟩ = ⟨1, ⟨2, 3, 4⟩⟩ :=
  C8_conversion id rfl rfl rfl rfl

end Imath
